import Mathlib

/-!
Shallow embedding of the NFT metadata/URL normalization utilities
(`src/utils.tsx`) and proofs about them.

Strings are embedded as Lean `String` (lists of characters); the JS regular
expressions used by the source are embedded as explicit character-list
matchers; null-like JS values are embedded as `Option`/a JS value type;
promises are embedded as settled outcomes `Except`; the host URL parser and
the canvas, which are platform capabilities and not part of the repository,
are modelled from the specification.
-/

namespace UseNft

/-! ### Generic character-list helpers (JS string/regex primitives) -/

/-- Boolean test that `pat` is an initial segment of `l`. -/
def listStartsWith : List Char → List Char → Bool
  | _, [] => true
  | [], _ :: _ => false
  | c :: cs, p :: ps => c = p && listStartsWith cs ps

/-- JS `String.startsWith` over the character data of a string. -/
def strStartsWith (s pat : String) : Bool :=
  listStartsWith s.data pat.data

/-- Boolean test that `pat` occurs contiguously somewhere in `l`;
embeds JS `String.includes`. -/
def listHasSub : List Char → List Char → Bool
  | [], pat => pat.isEmpty
  | c :: rest, pat => listStartsWith (c :: rest) pat || listHasSub rest pat

/-- JS `String.includes` over strings. -/
def strHasSub (s pat : String) : Bool :=
  listHasSub s.data pat.data

/-- ECMAScript GetSubstitution for a string replacement and a regex with
zero capture groups: in `repl`, the pair dollar-dollar yields a dollar,
dollar-ampersand inserts the matched text `m`, dollar followed by a
backquote (U+0060) inserts the part `bef` of the subject before the match,
dollar followed by a quote (U+0027) inserts the part `aft` after the match,
and any other dollar (group references included, since there are no groups)
stays literal, as does every other character. -/
def getSubstitution : List Char → List Char → List Char → List Char → List Char
  | [], _, _, _ => []
  | c :: rest, m, bef, aft =>
    if c = '$' then
      match rest with
      | [] => ['$']
      | c2 :: rest2 =>
        if c2 = '$' then '$' :: getSubstitution rest2 m bef aft
        else if c2 = '&' then m ++ getSubstitution rest2 m bef aft
        else if c2 = Char.ofNat 0x60 then bef ++ getSubstitution rest2 m bef aft
        else if c2 = Char.ofNat 0x27 then aft ++ getSubstitution rest2 m bef aft
        else '$' :: c2 :: getSubstitution rest2 m bef aft
    else c :: getSubstitution rest m bef aft

/-- Fuelled worker for global replacement; the fuel is the length of the
text, which bounds the number of characters consumed, and `seen` is the
already-scanned prefix of the original subject (the before-match text of
GetSubstitution). -/
def replaceFuel : Nat → List Char → List Char → List Char → List Char → List Char
  | 0, _, l, _, _ => l
  | _ + 1, _, [], _, _ => []
  | fuel + 1, seen, c :: rest, pat, repl =>
    if !pat.isEmpty && listStartsWith (c :: rest) pat then
      getSubstitution repl pat seen ((c :: rest).drop pat.length)
        ++ replaceFuel fuel (seen ++ pat) ((c :: rest).drop pat.length) pat repl
    else c :: replaceFuel fuel (seen ++ [c]) rest pat repl

/-- JS `String.replace` with a global literal pattern and a string
replacement: every occurrence of `pat` in `s` is rewritten with the
GetSubstitution expansion of `repl` (the literal `repl` itself whenever it
contains no dollar sign). -/
def replaceAll (s pat repl : String) : String :=
  ⟨replaceFuel s.data.length [] s.data pat.data repl.data⟩

/-- JS regex line terminators, which the `.` metacharacter does not match. -/
def isLineTerm (c : Char) : Bool :=
  c = '\n' || c = '\r' || c = Char.ofNat 0x2028 || c = Char.ofNat 0x2029

/-- Character class `[1-9A-HJ-NP-Za-km-z]` of the CID v0 regex `IPFS_HASH_RE`
(base58: digits and letters excluding 0, O, I, l). -/
def isBase58 (c : Char) : Bool :=
  ('1' ≤ c && c ≤ '9') || ('A' ≤ c && c ≤ 'H') || ('J' ≤ c && c ≤ 'N')
    || ('P' ≤ c && c ≤ 'Z') || ('a' ≤ c && c ≤ 'k') || ('m' ≤ c && c ≤ 'z')

/-- Character class `[a-fA-F0-9]` used by `RARIBLE_MATCH_RE`. -/
def isHexDigit (c : Char) : Bool :=
  ('0' ≤ c && c ≤ '9') || ('a' ≤ c && c ≤ 'f') || ('A' ≤ c && c ≤ 'F')

/-- Character class `[0-9]`. -/
def isDigitCh (c : Char) : Bool :=
  '0' ≤ c && c ≤ '9'

/-- Match a literal character sequence at the head of `l`, returning the
remainder on success (regex literal matching). -/
def matchChars : List Char → List Char → Option (List Char)
  | l, [] => some l
  | [], _ :: _ => none
  | c :: cs, p :: ps => if c = p then matchChars cs ps else none

/-- Consume exactly `n` hex digits from the head of `l`, returning them and
the remainder (regex `[a-fA-F0-9]{n}`). -/
def takeHex : Nat → List Char → Option (List Char × List Char)
  | 0, l => some ([], l)
  | _ + 1, [] => none
  | n + 1, c :: cs =>
    if isHexDigit c then (takeHex n cs).map (fun pr => (c :: pr.1, pr.2)) else none

/-! ### AddressUtils (`addressesEqual`) -/

/-- JS `String.toLowerCase` (over the ASCII range relevant to addresses). -/
def jsToLower (s : String) : String :=
  s.map Char.toLower

/-- Embeds `addressesEqual(addr1, addr2)`, which is
`addr1?.toLowerCase() === addr2?.toLowerCase()`.  A null-like argument
(`null` or `undefined`) is `none`; optional chaining then produces
`undefined` on that side, embedded as `Option.map`.  The function is total:
the null-safe navigation never throws. -/
def addressesEqual (addr1 addr2 : Option String) : Bool :=
  addr1.map jsToLower == addr2.map jsToLower

/-! ### NftUrlParser (`RARIBLE_MATCH_RE`, `parseNftUrl`) -/

/-- Embeds executing `RARIBLE_MATCH_RE`, the regex
`^https:\/\/rarible\.com\/token\/(0x[a-fA-F0-9]{40}):([0-9]+)` (anchored at
the start only, so trailing characters are allowed); on success returns the
two capture groups: the `0x`-prefixed 40-hex-digit address and the maximal
run of decimal digits after the colon. -/
def raribleMatch (url : String) : Option (String × String) :=
  match matchChars url.data "https://rarible.com/token/0x".data with
  | none => none
  | some rest =>
    match takeHex 40 rest with
    | none => none
    | some (addr, rest2) =>
      match rest2 with
      | ':' :: rest3 =>
        if (rest3.takeWhile isDigitCh).isEmpty then none
        else some (⟨'0' :: 'x' :: addr⟩, ⟨rest3.takeWhile isDigitCh⟩)
      | _ => none

/-- Embeds `parseNftUrl(url)`: the Rarible match or the no-result
sentinel `null` (here `none`). -/
def parseNftUrl (url : String) : Option (String × String) :=
  raribleMatch url

/-! ### ImageFramer (`frameImage`)

The canvas and its 2D context are platform capabilities; the observable
effect of `frameImage` on them (canvas size, smoothing flag, draw call
arguments) is recorded in a result structure.  JS numbers are embedded as
rationals. -/

/-- Embeds `Math.max` on two numbers. -/
def jsMax (a b : ℚ) : ℚ :=
  if a < b then b else a

/-- The part of an `HTMLImageElement` that `frameImage` reads. -/
structure HTMLImage where
  naturalWidth : ℚ
  naturalHeight : ℚ
deriving DecidableEq

/-- Observable outcome of a successful `frameImage` call: the allocated
canvas dimensions, the smoothing flag, and the `drawImage` arguments. -/
structure FrameResult where
  canvasWidth : ℚ
  canvasHeight : ℚ
  imageSmoothingEnabled : Bool
  drawX : ℚ
  drawY : ℚ
  drawW : ℚ
  drawH : ℚ
deriving DecidableEq

/-- Embeds `frameImage(image, {scale, padding})`.  The flag `ctxOk` models
whether `canvas.getContext("2d")` returns a context (a platform capability,
modelled from the spec); when it is `null` the function returns the
no-result sentinel rather than throwing. -/
def frameImage (image : HTMLImage) (scale padding : ℚ) (ctxOk : Bool) :
    Option FrameResult :=
  let width := image.naturalWidth * scale
  let height := image.naturalHeight * scale
  let pad := jsMax (width * padding) (height * padding)
  if ctxOk then
    some { canvasWidth := width + pad * 2, canvasHeight := height + pad * 2,
           imageSmoothingEnabled := false,
           drawX := pad, drawY := pad, drawW := width, drawH := height }
  else none

/-! ### IpfsResolver (`ipfsUrlDefault`, `ipfsUrl`, `normalizeImageUrl`) -/

/-- Embeds `ipfsUrlDefault(cid, path = "")`; the optional `path` argument is
`none` when the caller omits it, in which case the default `""` applies. -/
def ipfsUrlDefault (cid : String) (path : Option String) : String :=
  "https://ipfs.io/ipfs/" ++ cid ++ path.getD ""

/-- Embeds executing `IPFS_PROTOCOL_RE`, the regex
`^ipfs:\/\/ipfs\/([^/]+)(\/.+)?$`: on success returns the CID capture (the
maximal nonempty run of non-slash characters) and the optional path capture
(destructured with default `""` as in the source).  The `.` metacharacter
does not match line terminators, and the optional path group requires at
least one character after its slash. -/
def ipfsProtocolMatch (url : String) : Option (String × String) :=
  if strStartsWith url "ipfs://ipfs/" then
    let rest := url.data.drop 12
    let cid := rest.takeWhile (fun c => c ≠ '/')
    let path := rest.dropWhile (fun c => c ≠ '/')
    if cid.isEmpty then none
    else if path.isEmpty then some (⟨cid⟩, "")
    else if 2 ≤ path.length && (path.drop 1).all (fun c => !isLineTerm c) then
      some (⟨cid⟩, ⟨path⟩)
    else none
  else none

/-- Embeds `IPFS_HASH_RE.test`, the regex `^Qm[1-9A-HJ-NP-Za-km-z]{44}$`. -/
def ipfsHashTest (s : String) : Bool :=
  match s.data with
  | 'Q' :: 'm' :: rest => rest.length = 44 && rest.all isBase58
  | _ => false

/-- Embeds `ipfsUrl(url, builder)`.  In the protocol branch the builder
receives the captured path (a present, possibly empty string); in the bare
hash branch the source calls the builder with a single argument, so the
optional path is absent (`none`). -/
def ipfsUrl (url : String) (builder : String → Option String → String) : String :=
  match ipfsProtocolMatch url with
  | some (cid, path) => builder cid (some path)
  | none => if ipfsHashTest url then builder url none else url

/-- Embeds `normalizeImageUrl(url)`, which is `ipfsUrl(url)` with the
default gateway builder. -/
def normalizeImageUrl (url : String) : String :=
  ipfsUrl url ipfsUrlDefault

/-! ### MarketplaceUrlNormalizer (`normalizeOpenSeaUrl`, `normalizeNiftyGatewayUrl`)

Modelled from the spec: the host `URL` parser/builder is an external
capability (spec section 6: a standard URL parser/builder with scheme, host,
path and query-parameter mutation that throws on malformed input).  It is
modelled as a minimal `scheme://host/path?query` record; parse failure is
`none`, which the callers turn into returning the original string. -/

/-- Modelled from the spec: the parsed-URL record exposed by the host URL
capability (scheme, host, pathname, search parameters). -/
structure URLRec where
  scheme : String
  host : String
  pathname : String
  search : List (String × String)
deriving DecidableEq

/-- ASCII letter test, used for URL schemes. -/
def isAsciiAlpha (c : Char) : Bool :=
  ('a' ≤ c && c ≤ 'z') || ('A' ≤ c && c ≤ 'Z')

/-- Modelled from the spec: split a raw query into key/value pairs. -/
def parseParams (q : List Char) : List (String × String) :=
  if q.isEmpty then []
  else (q.splitOn '&').map fun kv =>
    (⟨kv.takeWhile (fun c => c ≠ '=')⟩, ⟨(kv.dropWhile (fun c => c ≠ '=')).drop 1⟩)

/-- Modelled from the spec: the host `new URL(s)` capability, restricted to
`scheme://host[/path][?query]` inputs; anything else throws, embedded as
`none`. -/
def parseURL (s : String) : Option URLRec :=
  let l := s.data
  let scheme := l.takeWhile isAsciiAlpha
  let rest := l.dropWhile isAsciiAlpha
  if scheme.isEmpty then none
  else
    match rest with
    | ':' :: '/' :: '/' :: after =>
      let host := after.takeWhile (fun c => c ≠ '/' && c ≠ '?')
      let tail := after.dropWhile (fun c => c ≠ '/' && c ≠ '?')
      if host.isEmpty then none
      else
        some { scheme := ⟨scheme⟩, host := ⟨host⟩,
               pathname := ⟨tail.takeWhile (fun c => c ≠ '?')⟩,
               search := parseParams ((tail.dropWhile (fun c => c ≠ '?')).drop 1) }
    | _ => none

/-- Modelled from the spec: serialize the search parameters back to text. -/
def serializeParams (ps : List (String × String)) : String :=
  String.intercalate "&" (ps.map fun p => p.1 ++ "=" ++ p.2)

/-- Modelled from the spec: the `String(url)` serializer of the host URL
capability. -/
def serializeURL (u : URLRec) : String :=
  u.scheme ++ "://" ++ u.host ++ u.pathname
    ++ (if u.search.isEmpty then "" else "?" ++ serializeParams u.search)

/-- Modelled from the spec: `URLSearchParams.set`, replacing the first
binding of the key, removing later duplicates, and appending when absent. -/
def setParam : List (String × String) → String → String → List (String × String)
  | [], k, v => [(k, v)]
  | (k0, v0) :: rest, k, v =>
    if k0 = k then (k, v) :: rest.filter (fun p => p.1 ≠ k)
    else (k0, v0) :: setParam rest k v

/-- Embeds `normalizeOpenSeaUrl(url, tokenId)`: parse the URL (returning the
input unchanged on failure), return the input unchanged unless the host is
`api.opensea.io` and the pathname includes `0x%7Bid%7D`, and otherwise
replace every occurrence of the placeholder in the pathname by `tokenId`,
set the `format=json` query parameter, and serialize. -/
def normalizeOpenSeaUrl (url tokenId : String) : String :=
  match parseURL url with
  | none => url
  | some u =>
    if u.host != "api.opensea.io" || !strHasSub u.pathname "0x%7Bid%7D" then url
    else
      serializeURL { u with
        pathname := replaceAll u.pathname "0x%7Bid%7D" tokenId,
        search := setParam u.search "format" "json" }

/-- Embeds `normalizeNiftyGatewayUrl(url)`: parse the URL (returning the
input unchanged on failure), return the input unchanged unless the host is
`api.niftygateway.com`, and otherwise append `/` to the pathname
unconditionally and serialize. -/
def normalizeNiftyGatewayUrl (url : String) : String :=
  match parseURL url with
  | none => url
  | some u =>
    if u.host != "api.niftygateway.com" then url
    else serializeURL { u with pathname := u.pathname ++ "/" }

/-! ### MetadataShapeFixer

JSON-like runtime values are embedded as `JsVal`; property access with
optional chaining is `getField`, which yields `undef` when the base is not
an object or lacks the key, exactly as `a?.b` never throws. -/

/-- Runtime JS values as delivered by JSON metadata endpoints. -/
inductive JsVal : Type where
  | undefined : JsVal
  | null : JsVal
  | bool : Bool → JsVal
  | num : Int → JsVal
  | str : String → JsVal
  | arr : List JsVal → JsVal
  | obj : List (String × JsVal) → JsVal

/-- Property access `v?.k`: the bound value on objects, `undefined`
otherwise (never throws, as with optional chaining). -/
def getField : JsVal → String → JsVal
  | .obj fields, k =>
    match fields.lookup k with
    | some v => v
    | none => .undefined
  | _, _ => .undefined

/-- JS truthiness of a value (`!v` is its negation). -/
def truthy : JsVal → Bool
  | .undefined => false
  | .null => false
  | .bool b => b
  | .num n => n != 0
  | .str s => !s.isEmpty
  | .arr _ => true
  | .obj _ => true

/-- JS `typeof v === "object"` (true for objects, arrays and `null`). -/
def typeofIsObject : JsVal → Bool
  | .null => true
  | .arr _ => true
  | .obj _ => true
  | _ => false

/-- JS `typeof v === "string"`. -/
def isStrVal : JsVal → Bool
  | .str _ => true
  | _ => false

/-- JS strict equality `v === s` against a string literal. -/
def strEqVal : JsVal → String → Bool
  | .str t, s => t == s
  | _, _ => false

/-- JS `a || b`: `a` when truthy, else `b`. -/
def jsOr (a b : JsVal) : JsVal :=
  if truthy a then a else b

/-- Embeds `isNftMetadataMixedInJsonSchema(data)`: the guard
`!data || typeof data !== "object"` followed by the eight structural
checks of the source, in order. -/
def isNftMetadataMixedInJsonSchema (data : JsVal) : Bool :=
  if !truthy data || !typeofIsObject data then false
  else
    strEqVal (getField data "title") "Asset Metadata"
    && strEqVal (getField data "type") "object"
    && isStrVal (getField (getField (getField data "properties") "name") "description")
    && isStrVal (getField (getField (getField data "properties") "image") "description")
    && isStrVal (getField (getField (getField data "properties") "description") "description")
    && strEqVal (getField (getField (getField data "properties") "name") "type") "string"
    && strEqVal (getField (getField (getField data "properties") "image") "type") "string"
    && strEqVal (getField (getField (getField data "properties") "description") "type") "string"

/-- Embeds `fixNftMetadataMixedInJsonSchema(data)`: each output field is
`data?.properties?.<key>?.description || ""`. -/
def fixNftMetadataMixedInJsonSchema (data : JsVal) : JsVal :=
  .obj
    [("name",
       jsOr (getField (getField (getField data "properties") "name") "description") (.str "")),
     ("description",
       jsOr (getField (getField (getField data "properties") "description") "description") (.str "")),
     ("image",
       jsOr (getField (getField (getField data "properties") "image") "description") (.str ""))]

/-- Concrete schema-shaped input whose `name` description is present but
falsy (`false`), used to separate missing from falsy. -/
def schemaFalsyData : JsVal :=
  .obj [("properties", .obj [("name", .obj [("description", .bool false)])])]

/-- Modelled from the spec: `types.ts` is not part of the sources; the
canonical `NftMetadata` record has the three named string fields and
preserves any additional fields unchanged (spec section 3). -/
structure NftMetadata where
  name : String
  description : String
  image : String
  extraFields : List (String × JsVal)

/-- Embeds `normalizeNftMetadata(data)`: a shallow copy with the `image`
field resolved through `normalizeImageUrl`. -/
def normalizeNftMetadata (data : NftMetadata) : NftMetadata :=
  { data with image := normalizeImageUrl data.image }

/-! ### PromiseAny (`promiseAny`, `reversePromise`)

Promises are embedded by their settled outcomes: `Except.ok` for a
fulfilled promise and `Except.error` for a rejected one. -/

/-- Embeds `reversePromise(promise)`: fulfillment and rejection swapped. -/
def reversePromise {ε α : Type} : Except ε α → Except α ε
  | .ok v => .error v
  | .error e => .ok e

/-- Embeds `Promise.all` over settled outcomes: the list of values when all
fulfill, else the first rejection. -/
def promiseAll {ε α : Type} : List (Except ε α) → Except ε (List α)
  | [] => .ok []
  | p :: rest =>
    match p with
    | .error e => .error e
    | .ok v =>
      match promiseAll rest with
      | .error e => .error e
      | .ok vs => .ok (v :: vs)

/-- Embeds `promiseAny(promises)`: the double inversion
`reversePromise(Promise.all(promises.map(reversePromise)))`. -/
def promiseAny {ε α : Type} (promises : List (Except ε α)) : Except (List ε) α :=
  reversePromise (promiseAll (promises.map reversePromise))

/-! ### Helper lemmas -/

-- Appending the empty string on the right is the identity.
theorem strAppendEmpty (s : String) : s ++ "" = s :=
  congrArg String.mk (List.append_nil s.data)

-- String concatenation concatenates the character data.
theorem strDataApp (a b : String) : (a ++ b).data = a.data ++ b.data := rfl

-- Math.max agrees with the lattice maximum on the rationals.
theorem jsMax_eq_max (a b : ℚ) : jsMax a b = max a b := by
  unfold jsMax
  rcases le_or_lt b a with h | h
  · rw [if_neg (not_lt.mpr h), max_eq_left h]
  · rw [if_pos h, max_eq_right h.le]

-- A list starting with a nonempty pattern starts with its head character.
theorem listStartsWith_cons_ex (p : Char) (ps : List Char) {l : List Char}
    (h : listStartsWith l (p :: ps) = true) : ∃ t, l = p :: t := by
  cases l with
  | nil => simp [listStartsWith] at h
  | cons c cs =>
    simp [listStartsWith] at h
    exact ⟨cs, by rw [h.1]⟩

-- The empty pattern is an initial segment of every list.
theorem listStartsWith_nil : ∀ l : List Char, listStartsWith l [] = true
  | [] => rfl
  | _ :: _ => rfl

-- Every list starts with itself, whatever follows.
theorem listStartsWith_app (x y : List Char) : listStartsWith (x ++ y) x = true := by
  induction x with
  | nil => exact listStartsWith_nil y
  | cons c cs ih => simp [listStartsWith, ih]

-- Successful literal matching splits the input after the pattern.
theorem matchChars_sound : ∀ {pat l r : List Char}, matchChars l pat = some r → l = pat ++ r
  | [], l, r, h => by
    simp [matchChars] at h
    simp [h]
  | p :: ps, [], r, h => by simp [matchChars] at h
  | p :: ps, c :: cs, r, h => by
    by_cases hc : c = p
    · subst hc
      simp only [matchChars, if_pos rfl] at h
      simpa using matchChars_sound h
    · simp [matchChars, hc] at h

-- Literal matching is stable under appending a suffix to the input.
theorem matchChars_app {s : List Char} :
    ∀ {pat l r : List Char}, matchChars l pat = some r → matchChars (l ++ s) pat = some (r ++ s)
  | [], l, r, h => by simp [matchChars] at h ⊢; rw [h]
  | p :: ps, [], r, h => by simp [matchChars] at h
  | p :: ps, c :: cs, r, h => by
    by_cases hc : c = p
    · subst hc
      simp only [matchChars, if_pos rfl, List.cons_append] at h ⊢
      exact matchChars_app h
    · simp [matchChars, hc] at h

-- Consuming n hex digits splits the input and yields n hex characters.
theorem takeHex_sound :
    ∀ {n : Nat} {l h r : List Char},
      takeHex n l = some (h, r) → l = h ++ r ∧ h.length = n ∧ h.all isHexDigit = true
  | 0, l, h, r, hx => by
    simp [takeHex] at hx
    obtain ⟨rfl, rfl⟩ := hx
    simp
  | n + 1, [], h, r, hx => by simp [takeHex] at hx
  | n + 1, c :: cs, h, r, hx => by
    by_cases hc : isHexDigit c = true
    · simp only [takeHex, if_pos hc, Option.map_eq_some'] at hx
      obtain ⟨⟨h', r'⟩, hrec, heq⟩ := hx
      obtain ⟨he, hlen, hall⟩ := takeHex_sound hrec
      injection heq with h1 h2
      subst h1
      subst h2
      simp [he, hlen, List.all_cons, hc, hall]
    · simp [takeHex, hc] at hx

-- Consuming n hex digits is stable under appending a suffix to the input.
theorem takeHex_app {s : List Char} :
    ∀ {n : Nat} {l h r : List Char},
      takeHex n l = some (h, r) → takeHex n (l ++ s) = some (h, r ++ s)
  | 0, l, h, r, hx => by
    simp [takeHex] at hx ⊢
    obtain ⟨rfl, rfl⟩ := hx
    exact ⟨rfl, rfl⟩
  | n + 1, [], h, r, hx => by simp [takeHex] at hx
  | n + 1, c :: cs, h, r, hx => by
    by_cases hc : isHexDigit c = true
    · simp only [takeHex, if_pos hc, Option.map_eq_some'] at hx
      obtain ⟨⟨h', r'⟩, hrec, heq⟩ := hx
      injection heq with h1 h2
      subst h1
      subst h2
      simp only [List.cons_append, takeHex, if_pos hc, Option.map_eq_some']
      exact ⟨(h', r' ++ s), takeHex_app hrec, rfl⟩
    · simp [takeHex, hc] at hx

-- Literal matching succeeds on any input that extends the pattern.
theorem matchChars_complete : ∀ (pat r : List Char), matchChars (pat ++ r) pat = some r
  | [], r => by cases r <;> rfl
  | p :: ps, r => by simp [matchChars, matchChars_complete ps r]

-- Consuming hex digits succeeds on a hex block followed by anything.
theorem takeHex_complete : ∀ (h r : List Char), h.all isHexDigit = true →
    takeHex h.length (h ++ r) = some (h, r)
  | [], r, _ => rfl
  | c :: cs, r, hall => by
    simp only [List.all_cons, Bool.and_eq_true] at hall
    simp [takeHex, hall.1, takeHex_complete cs r hall.2]

-- The characters kept by takeWhile all satisfy the predicate.
theorem takeWhile_all {p : Char → Bool} : ∀ (l : List Char), (l.takeWhile p).all p = true
  | [] => rfl
  | c :: cs => by
    by_cases hc : p c = true
    · simp [List.takeWhile, hc, takeWhile_all cs]
    · simp [List.takeWhile, hc]

-- A replacement string without dollar signs substitutes literally.
theorem getSubstitution_no_dollar :
    ∀ (repl : List Char), repl.all (fun c => c ≠ '$') = true →
      ∀ m bef aft, getSubstitution repl m bef aft = repl
  | [], _, _, _, _ => rfl
  | c :: rest, h, m, bef, aft => by
    simp only [List.all_cons, Bool.and_eq_true, decide_eq_true_eq] at h
    rw [getSubstitution.eq_def]
    simp only []
    rw [if_neg h.1]
    rw [getSubstitution_no_dollar rest h.2 m bef aft]

-- Strict equality against a string literal holds exactly on that string value.
theorem strEqVal_iff (v : JsVal) (s : String) : strEqVal v s = true ↔ v = JsVal.str s := by
  cases v <;> simp [strEqVal]

-- The typeof-string test holds exactly on string values.
theorem isStrVal_iff (v : JsVal) : isStrVal v = true ↔ ∃ s, v = JsVal.str s := by
  cases v <;> simp [isStrVal]

-- promiseAny on the empty collection: Promise.all of nothing fulfills, so the
-- double inversion rejects with the empty aggregate.
theorem promiseAny_nil {ε α : Type} : promiseAny ([] : List (Except ε α)) = .error [] := rfl

-- promiseAny with a fulfilled head resolves with its value.
theorem promiseAny_cons_ok {ε α : Type} (v : α) (rest : List (Except ε α)) :
    promiseAny (.ok v :: rest) = .ok v := rfl

-- promiseAny with a rejected head defers to the rest, accumulating the error.
theorem promiseAny_cons_error {ε α : Type} (e : ε) (rest : List (Except ε α)) :
    promiseAny (.error e :: rest) =
      match promiseAny rest with
      | .ok v => .ok v
      | .error es => .error (e :: es) := by
  unfold promiseAny
  show reversePromise (promiseAll (Except.ok e :: rest.map reversePromise)) = _
  cases h : promiseAll (rest.map reversePromise) with
  | ok es => simp [promiseAll, h, reversePromise]
  | error v => simp [promiseAll, h, reversePromise]

-- Anatomy of a successful Rarible match: the input decomposes into the
-- literal prefix, forty hex digits, a colon and a digit run, and the two
-- captures are determined by that decomposition.
theorem raribleMatch_anatomy {url a t : String} (h : raribleMatch url = some (a, t)) :
    ∃ addr rest3,
      url.data = "https://rarible.com/token/0x".data ++ addr ++ ':' :: rest3
      ∧ addr.length = 40 ∧ addr.all isHexDigit = true
      ∧ a = ⟨'0' :: 'x' :: addr⟩
      ∧ t = ⟨rest3.takeWhile isDigitCh⟩
      ∧ rest3.takeWhile isDigitCh ≠ [] := by
  unfold raribleMatch at h
  cases hm : matchChars url.data "https://rarible.com/token/0x".data with
  | none => rw [hm] at h; simp at h
  | some rest =>
    rw [hm] at h
    dsimp only at h
    cases hh : takeHex 40 rest with
    | none => rw [hh] at h; simp at h
    | some pr =>
      obtain ⟨addr, rest2⟩ := pr
      rw [hh] at h
      dsimp only at h
      split at h
      · next rest3 =>
        split at h
        · simp at h
        · next hemp =>
          injection h with h'
          injection h' with h1 h2
          refine ⟨addr, rest3, ?_, (takeHex_sound hh).2.1, (takeHex_sound hh).2.2,
            h1.symm, h2.symm, ?_⟩
          · rw [matchChars_sound hm, (takeHex_sound hh).1]
            simp [List.append_assoc]
          · intro hnil
            apply hemp
            rw [hnil]
            rfl
      · simp at h

-- An HTTP(S) URL matches neither IPFS pattern, so normalizeImageUrl fixes it.
theorem normalizeImageUrl_http_fixed (url : String)
    (h : strStartsWith url "https://" = true ∨ strStartsWith url "http://" = true) :
    normalizeImageUrl url = url := by
  obtain ⟨cs, hd⟩ : ∃ cs, url.data = 'h' :: cs := by
    rcases h with h | h
    · exact listStartsWith_cons_ex 'h' "ttps://".data h
    · exact listStartsWith_cons_ex 'h' "ttp://".data h
  have h1 : strStartsWith url "ipfs://ipfs/" = false := by
    unfold strStartsWith
    rw [hd]
    rfl
  have h2 : ipfsHashTest url = false := by
    unfold ipfsHashTest
    rw [hd]
    rfl
  have h3 : ipfsProtocolMatch url = none := by
    unfold ipfsProtocolMatch
    rw [h1]
    rfl
  simp [normalizeImageUrl, ipfsUrl, h3, h2]

/-! ### Claim theorems -/

/-- C1 counterexample: when both arguments are null-like, both sides of the
strict equality are `undefined`, so `addressesEqual` returns `true` — not
`false` as the claim requires for null-like inputs. -/
theorem addressesEqual_bothNull_counterexample : addressesEqual none none = true := rfl

/-- C1 (amended): with both inputs present, `addressesEqual` is true iff the
two strings agree after lowercasing; with exactly one null-like input it is
false; with both inputs null-like it is `true` (both sides of `===` are
`undefined`); it never throws (it is total by construction). -/
theorem addressesEqual_spec :
    (∀ a b : String, addressesEqual (some a) (some b) = true ↔ jsToLower a = jsToLower b)
    ∧ (∀ a : String, addressesEqual (some a) none = false ∧ addressesEqual none (some a) = false)
    ∧ addressesEqual none none = true := by
  refine ⟨fun a b => ?_, fun a => ⟨rfl, rfl⟩, rfl⟩
  simp [addressesEqual]

/-- C2: over settled outcomes, `promiseAny` resolves with the value of one of
the successful operations whenever at least one operation succeeds, rejects
iff every operation fails, and rejects on the empty list. -/
theorem promiseAny_spec {ε α : Type} (ps : List (Except ε α)) :
    ((∃ v, Except.ok v ∈ ps) → ∃ v, promiseAny ps = Except.ok v ∧ Except.ok v ∈ ps)
    ∧ ((∃ es, promiseAny ps = Except.error es) ↔ ∀ p ∈ ps, ∀ v, p ≠ Except.ok v)
    ∧ promiseAny ([] : List (Except ε α)) = Except.error [] := by
  refine ⟨?_, ?_, rfl⟩
  · induction ps with
    | nil => rintro ⟨v, hv⟩; simp at hv
    | cons p rest ih =>
      rintro ⟨v, hv⟩
      cases p with
      | ok w => exact ⟨w, promiseAny_cons_ok w rest, List.mem_cons_self _ _⟩
      | error e =>
        have hv' : Except.ok v ∈ rest := by
          rcases List.mem_cons.mp hv with h | h
          · exact absurd h (by simp)
          · exact h
        obtain ⟨w, hw, hmem⟩ := ih ⟨v, hv'⟩
        refine ⟨w, ?_, List.mem_cons_of_mem _ hmem⟩
        rw [promiseAny_cons_error, hw]
  · induction ps with
    | nil => simp [promiseAny_nil]
    | cons p rest ih =>
      cases p with
      | ok w => simp [promiseAny_cons_ok]
      | error e =>
        simp only [promiseAny_cons_error]
        constructor
        · rintro ⟨es, hes⟩
          intro p hp v
          rcases List.mem_cons.mp hp with rfl | hp'
          · simp
          · cases h : promiseAny rest with
            | ok w => rw [h] at hes; simp at hes
            | error es' => exact ih.mp ⟨es', h⟩ p hp' v
        · intro hall
          have : ∃ es, promiseAny rest = Except.error es :=
            ih.mpr fun p hp v => hall p (List.mem_cons_of_mem _ hp) v
          obtain ⟨es, hes⟩ := this
          exact ⟨e :: es, by rw [hes]⟩

/-- C2 witness: a concrete mixed list resolves with the value of its
successful operation. -/
theorem promiseAny_spec_witness :
    ∃ v, promiseAny [Except.error "e", Except.ok 5, Except.error "f"] = Except.ok v
      ∧ Except.ok v ∈ [Except.error "e", Except.ok 5, Except.error "f"] :=
  (promiseAny_spec [Except.error "e", Except.ok 5, Except.error "f"]).1 ⟨5, by simp⟩

/-- C3: `ipfsUrl` rewrites a matching `ipfs://ipfs/<cid>[/<path>]` locator to
the builder applied to the CID and present path, rewrites a bare CID v0 hash
to the builder applied to the hash and absent path, and returns any other
string unchanged; with the default builder the first two cases produce
`https://ipfs.io/ipfs/` followed by the CID and the optional path. -/
theorem ipfsUrl_spec (url : String) (builder : String → Option String → String) :
    (∀ cid path, ipfsProtocolMatch url = some (cid, path) →
        ipfsUrl url builder = builder cid (some path)
        ∧ ipfsUrl url ipfsUrlDefault = "https://ipfs.io/ipfs/" ++ cid ++ path)
    ∧ (ipfsProtocolMatch url = none → ipfsHashTest url = true →
        ipfsUrl url builder = builder url none
        ∧ ipfsUrl url ipfsUrlDefault = "https://ipfs.io/ipfs/" ++ url)
    ∧ (ipfsProtocolMatch url = none → ipfsHashTest url = false →
        ipfsUrl url builder = url) := by
  refine ⟨fun cid path h => ⟨?_, ?_⟩, fun h1 h2 => ⟨?_, ?_⟩, fun h1 h2 => ?_⟩
  · simp [ipfsUrl, h]
  · simp [ipfsUrl, h, ipfsUrlDefault]
  · simp [ipfsUrl, h1, h2]
  · simp [ipfsUrl, h1, h2, ipfsUrlDefault, strAppendEmpty]
  · simp [ipfsUrl, h1, h2]

/-- C3 witness: the three cases at concrete inputs, with the default builder
and with a custom builder that records its arguments. -/
theorem ipfsUrl_spec_witness :
    (ipfsUrl "ipfs://ipfs/QmFoo/bar.png" (fun c p => "G:" ++ c ++ "|" ++ p.getD "-")
        = "G:" ++ "QmFoo" ++ "|" ++ (some "/bar.png").getD "-"
      ∧ ipfsUrl "ipfs://ipfs/QmFoo/bar.png" ipfsUrlDefault
        = "https://ipfs.io/ipfs/" ++ "QmFoo" ++ "/bar.png")
    ∧ (ipfsUrl "QmNt5T9HSXKLXZ3kmciU4Tm6q9R8JEm5ifJkPoxapjyRUR"
          (fun c p => "G:" ++ c ++ "|" ++ p.getD "-")
        = "G:" ++ "QmNt5T9HSXKLXZ3kmciU4Tm6q9R8JEm5ifJkPoxapjyRUR" ++ "|" ++ (none : Option String).getD "-"
      ∧ ipfsUrl "QmNt5T9HSXKLXZ3kmciU4Tm6q9R8JEm5ifJkPoxapjyRUR" ipfsUrlDefault
        = "https://ipfs.io/ipfs/" ++ "QmNt5T9HSXKLXZ3kmciU4Tm6q9R8JEm5ifJkPoxapjyRUR")
    ∧ ipfsUrl "https://example.com/x" (fun c p => "G:" ++ c ++ "|" ++ p.getD "-")
        = "https://example.com/x" :=
  ⟨(ipfsUrl_spec "ipfs://ipfs/QmFoo/bar.png" (fun c p => "G:" ++ c ++ "|" ++ p.getD "-")).1
      "QmFoo" "/bar.png" rfl,
   (ipfsUrl_spec "QmNt5T9HSXKLXZ3kmciU4Tm6q9R8JEm5ifJkPoxapjyRUR"
      (fun c p => "G:" ++ c ++ "|" ++ p.getD "-")).2.1 rfl rfl,
   (ipfsUrl_spec "https://example.com/x" (fun c p => "G:" ++ c ++ "|" ++ p.getD "-")).2.2 rfl rfl⟩

/-- C5 counterexample: at `naturalWidth = 1`, `naturalHeight = 2`,
`scale = 1`, `padding = -1`, the code computes the pixel padding
`Math.max(width * padding, height * padding) = -1`, while the claimed
formula `max(width, height) * padding` gives `-2`. -/
theorem frameImage_padding_counterexample :
    (frameImage ⟨1, 2⟩ 1 (-1) true).map (fun r => r.drawX) = some (-1)
    ∧ max ((1 : ℚ) * 1) ((2 : ℚ) * 1) * (-1) = -2
    ∧ (-1 : ℚ) ≠ -2 := by
  refine ⟨?_, ?_, by norm_num⟩
  · norm_num [frameImage, jsMax]
  · rw [max_eq_right (by norm_num : (1 : ℚ) * 1 ≤ 2 * 1)]
    norm_num

/-- C5 (amended): `frameImage` returns the no-result sentinel when the 2D
context cannot be acquired; otherwise, provided the padding proportion is
nonnegative, the pixel padding equals `max(width, height) * padding` with
`width = naturalWidth * scale` and `height = naturalHeight * scale`, and the
canvas is sized `(width + 2 * padding_px) × (height + 2 * padding_px)` (the
code computes `Math.max(width * padding, height * padding)`, which differs
from the claimed formula when `padding < 0`). -/
theorem frameImage_spec (image : HTMLImage) (scale padding : ℚ) (hp : 0 ≤ padding) :
    frameImage image scale padding false = none
    ∧ frameImage image scale padding true = some
        { canvasWidth := image.naturalWidth * scale
            + max (image.naturalWidth * scale) (image.naturalHeight * scale) * padding * 2,
          canvasHeight := image.naturalHeight * scale
            + max (image.naturalWidth * scale) (image.naturalHeight * scale) * padding * 2,
          imageSmoothingEnabled := false,
          drawX := max (image.naturalWidth * scale) (image.naturalHeight * scale) * padding,
          drawY := max (image.naturalWidth * scale) (image.naturalHeight * scale) * padding,
          drawW := image.naturalWidth * scale,
          drawH := image.naturalHeight * scale } := by
  have hmax : jsMax (image.naturalWidth * scale * padding) (image.naturalHeight * scale * padding)
      = max (image.naturalWidth * scale) (image.naturalHeight * scale) * padding := by
    rw [jsMax_eq_max, max_mul_of_nonneg _ _ hp]
  exact ⟨rfl, by simp [frameImage, hmax]⟩

/-- C5 witness: the amended statement evaluated at a 3 by 2 image, scale 1
and padding 2. -/
theorem frameImage_spec_witness :
    frameImage ⟨3, 2⟩ 1 2 false = none
    ∧ frameImage ⟨3, 2⟩ 1 2 true = some
        { canvasWidth := (3 : ℚ) * 1 + max ((3 : ℚ) * 1) ((2 : ℚ) * 1) * 2 * 2,
          canvasHeight := (2 : ℚ) * 1 + max ((3 : ℚ) * 1) ((2 : ℚ) * 1) * 2 * 2,
          imageSmoothingEnabled := false,
          drawX := max ((3 : ℚ) * 1) ((2 : ℚ) * 1) * 2,
          drawY := max ((3 : ℚ) * 1) ((2 : ℚ) * 1) * 2,
          drawW := (3 : ℚ) * 1,
          drawH := (2 : ℚ) * 1 } :=
  frameImage_spec ⟨3, 2⟩ 1 2 zero_le_two

/-- C6 counterexample: on a schema-shaped document whose
`properties.name.description` is present but falsy (`false`), the fixer
emits the empty string instead of the present value, so the output field is
not the corresponding `description` value. -/
theorem fixNftMetadataMixedInJsonSchema_counterexample :
    getField (getField (getField schemaFalsyData "properties") "name") "description"
      = JsVal.bool false
    ∧ getField (fixNftMetadataMixedInJsonSchema schemaFalsyData) "name" = JsVal.str ""
    ∧ JsVal.str "" ≠ JsVal.bool false :=
  ⟨rfl, rfl, fun h => JsVal.noConfusion h⟩

/-- C6 (amended): `isNftMetadataMixedInJsonSchema` is true iff the input is
a non-null object whose `title` is `"Asset Metadata"`, whose `type` is
`"object"`, and whose `properties.name`, `properties.image` and
`properties.description` each carry a string `description` and a `type`
equal to `"string"`; and `fixNftMetadataMixedInJsonSchema` returns the
record whose `name`, `description` and `image` fields are the corresponding
`properties.*.description` values when truthy, and the empty string when the
value is missing or otherwise falsy. -/
theorem nftMetadataMixedInJsonSchema_spec (data : JsVal) :
    (isNftMetadataMixedInJsonSchema data = true ↔
      ((∃ fields, data = JsVal.obj fields)
        ∧ getField data "title" = JsVal.str "Asset Metadata"
        ∧ getField data "type" = JsVal.str "object"
        ∧ (∃ s, getField (getField (getField data "properties") "name") "description"
            = JsVal.str s)
        ∧ (∃ s, getField (getField (getField data "properties") "image") "description"
            = JsVal.str s)
        ∧ (∃ s, getField (getField (getField data "properties") "description") "description"
            = JsVal.str s)
        ∧ getField (getField (getField data "properties") "name") "type" = JsVal.str "string"
        ∧ getField (getField (getField data "properties") "image") "type" = JsVal.str "string"
        ∧ getField (getField (getField data "properties") "description") "type"
            = JsVal.str "string"))
    ∧ fixNftMetadataMixedInJsonSchema data = JsVal.obj
        [("name",
           if truthy (getField (getField (getField data "properties") "name") "description")
           then getField (getField (getField data "properties") "name") "description"
           else JsVal.str ""),
         ("description",
           if truthy (getField (getField (getField data "properties") "description") "description")
           then getField (getField (getField data "properties") "description") "description"
           else JsVal.str ""),
         ("image",
           if truthy (getField (getField (getField data "properties") "image") "description")
           then getField (getField (getField data "properties") "image") "description"
           else JsVal.str "")] := by
  refine ⟨?_, rfl⟩
  cases data with
  | obj fields =>
    constructor
    · intro h
      simp [isNftMetadataMixedInJsonSchema, truthy, typeofIsObject, strEqVal_iff,
        isStrVal_iff] at h
      refine ⟨⟨fields, rfl⟩, ?_⟩
      tauto
    · rintro ⟨-, h⟩
      simp [isNftMetadataMixedInJsonSchema, truthy, typeofIsObject, strEqVal_iff, isStrVal_iff]
      tauto
  | undefined => simp [isNftMetadataMixedInJsonSchema, truthy]
  | null => simp [isNftMetadataMixedInJsonSchema, truthy]
  | bool b => simp [isNftMetadataMixedInJsonSchema, truthy, typeofIsObject]
  | num n => simp [isNftMetadataMixedInJsonSchema, truthy, typeofIsObject]
  | str s => simp [isNftMetadataMixedInJsonSchema, truthy, typeofIsObject]
  | arr l => simp [isNftMetadataMixedInJsonSchema, truthy, typeofIsObject, getField, strEqVal]

/-- C4 counterexample: `String.replace` with a string replacement applies
GetSubstitution, so at token id `$&` the program re-inserts the matched
text: the placeholder survives in the result instead of being replaced by
the given token id, and the result differs from the literal substitution the
claim describes. -/
theorem normalizeOpenSeaUrl_dollar_counterexample :
    normalizeOpenSeaUrl "https://api.opensea.io/api/v1/asset/0x%7Bid%7D" "$&"
      = "https://api.opensea.io/api/v1/asset/0x%7Bid%7D?format=json"
    ∧ strHasSub (normalizeOpenSeaUrl "https://api.opensea.io/api/v1/asset/0x%7Bid%7D" "$&")
        "0x%7Bid%7D" = true
    ∧ normalizeOpenSeaUrl "https://api.opensea.io/api/v1/asset/0x%7Bid%7D" "$&"
      ≠ "https://api.opensea.io/api/v1/asset/$&?format=json" :=
  ⟨rfl, rfl, by decide⟩

/-- C4 (amended): `normalizeOpenSeaUrl` never throws (it is total by
construction); an unparseable input is returned unchanged; a parsed URL
whose host is not the OpenSea API host or whose pathname lacks the encoded
placeholder `0x%7Bid%7D` is returned unchanged (the original string,
byte-identical); otherwise every occurrence of the placeholder in the
pathname is rewritten with the ECMAScript GetSubstitution expansion of the
token id — the token id itself whenever it contains no dollar sign — the
`format=json` query parameter is set, and the rebuilt URL is returned. -/
theorem normalizeOpenSeaUrl_spec (url tokenId : String) :
    (parseURL url = none → normalizeOpenSeaUrl url tokenId = url)
    ∧ (∀ u, parseURL url = some u →
        u.host ≠ "api.opensea.io" ∨ strHasSub u.pathname "0x%7Bid%7D" = false →
        normalizeOpenSeaUrl url tokenId = url)
    ∧ (∀ u, parseURL url = some u → u.host = "api.opensea.io" →
        strHasSub u.pathname "0x%7Bid%7D" = true →
        normalizeOpenSeaUrl url tokenId = serializeURL { u with
          pathname := replaceAll u.pathname "0x%7Bid%7D" tokenId,
          search := setParam u.search "format" "json" })
    ∧ (tokenId.data.all (fun c => c ≠ '$') = true →
        ∀ m bef aft, getSubstitution tokenId.data m bef aft = tokenId.data) := by
  refine ⟨fun h => by simp [normalizeOpenSeaUrl, h], fun u hu hcond => ?_, fun u hu h1 h2 => ?_,
    fun hfree m bef aft => getSubstitution_no_dollar tokenId.data hfree m bef aft⟩
  · have hc : (u.host != "api.opensea.io" || !strHasSub u.pathname "0x%7Bid%7D") = true := by
      rcases hcond with h | h
      · simp [h]
      · simp [h]
    simp [normalizeOpenSeaUrl, hu, hc]
  · have hc : (u.host != "api.opensea.io" || !strHasSub u.pathname "0x%7Bid%7D") = false := by
      simp [h1, h2]
    simp [normalizeOpenSeaUrl, hu, hc]

/-- C4 witness: an unparsable string and a non-OpenSea URL are returned
unchanged, the templated OpenSea asset URL is rebuilt with the dollar-free
token id `42` substituted literally and `format=json` set, and the
GetSubstitution expansion of `42` is `42` itself. -/
theorem normalizeOpenSeaUrl_spec_witness :
    normalizeOpenSeaUrl "not a url" "42" = "not a url"
    ∧ normalizeOpenSeaUrl "https://example.com/x" "42" = "https://example.com/x"
    ∧ normalizeOpenSeaUrl "https://api.opensea.io/api/v1/asset/0x%7Bid%7D" "42"
        = serializeURL
            { scheme := "https", host := "api.opensea.io",
              pathname := replaceAll "/api/v1/asset/0x%7Bid%7D" "0x%7Bid%7D" "42",
              search := setParam [] "format" "json" }
    ∧ normalizeOpenSeaUrl "https://api.opensea.io/api/v1/asset/0x%7Bid%7D" "42"
        = "https://api.opensea.io/api/v1/asset/42?format=json"
    ∧ getSubstitution ("42" : String).data ("0x%7Bid%7D" : String).data [] []
        = ("42" : String).data :=
  ⟨(normalizeOpenSeaUrl_spec "not a url" "42").1 rfl,
   (normalizeOpenSeaUrl_spec "https://example.com/x" "42").2.1
      { scheme := "https", host := "example.com", pathname := "/x", search := [] } rfl
      (Or.inl (by decide)),
   (normalizeOpenSeaUrl_spec "https://api.opensea.io/api/v1/asset/0x%7Bid%7D" "42").2.2.1
      { scheme := "https", host := "api.opensea.io",
        pathname := "/api/v1/asset/0x%7Bid%7D", search := [] } rfl rfl rfl,
   rfl,
   (normalizeOpenSeaUrl_spec "https://api.opensea.io/api/v1/asset/0x%7Bid%7D" "42").2.2.2
      rfl ("0x%7Bid%7D" : String).data [] []⟩

/-- C7: `normalizeNftMetadata` replaces the `image` field by its
IPFS-resolved form and leaves the name, the description and every
additional field unchanged. -/
theorem normalizeNftMetadata_spec (data : NftMetadata) :
    (normalizeNftMetadata data).image = ipfsUrl data.image ipfsUrlDefault
    ∧ (normalizeNftMetadata data).name = data.name
    ∧ (normalizeNftMetadata data).description = data.description
    ∧ (normalizeNftMetadata data).extraFields = data.extraFields :=
  ⟨rfl, rfl, rfl, rfl⟩

/-- C8: applying `normalizeImageUrl` twice to a URL that is already an
HTTP(S) URL yields the same result as applying it once (such a URL matches
neither the `ipfs://ipfs/` protocol form nor the bare CID pattern, so it is
already a fixed point). -/
theorem normalizeImageUrl_idem (url : String)
    (h : strStartsWith url "https://" = true ∨ strStartsWith url "http://" = true) :
    normalizeImageUrl (normalizeImageUrl url) = normalizeImageUrl url := by
  rw [normalizeImageUrl_http_fixed url h, normalizeImageUrl_http_fixed url h]

/-- C8 witness: idempotence at a concrete HTTPS URL. -/
theorem normalizeImageUrl_idem_witness :
    normalizeImageUrl (normalizeImageUrl "https://example.com/a.png")
      = normalizeImageUrl "https://example.com/a.png" :=
  normalizeImageUrl_idem "https://example.com/a.png" (Or.inl rfl)

/-- C9: for every parseable URL whose host is the Nifty Gateway API host,
the pathname gets `/` appended unconditionally (also when it already ends
with `/`); consequently the function is not idempotent: on a concrete URL
whose path already ends in `/`, applying it twice differs from applying it
once. -/
theorem normalizeNiftyGatewayUrl_spec :
    (∀ url u, parseURL url = some u → u.host = "api.niftygateway.com" →
        normalizeNiftyGatewayUrl url = serializeURL { u with pathname := u.pathname ++ "/" })
    ∧ normalizeNiftyGatewayUrl (normalizeNiftyGatewayUrl "https://api.niftygateway.com/path/")
        ≠ normalizeNiftyGatewayUrl "https://api.niftygateway.com/path/" := by
  refine ⟨fun url u hu hh => ?_, by decide⟩
  simp [normalizeNiftyGatewayUrl, hu, hh]

/-- C9 witness: the unconditional slash append at a concrete Nifty Gateway
URL. -/
theorem normalizeNiftyGatewayUrl_spec_witness :
    normalizeNiftyGatewayUrl "https://api.niftygateway.com/path"
      = serializeURL { scheme := "https", host := "api.niftygateway.com",
                       pathname := "/path" ++ "/", search := [] } :=
  normalizeNiftyGatewayUrl_spec.1 "https://api.niftygateway.com/path"
    { scheme := "https", host := "api.niftygateway.com", pathname := "/path", search := [] }
    rfl rfl

/-- C10: a successful `parseNftUrl` parse means the input begins with
`https://rarible.com/token/` followed by the first capture (a `0x`-prefixed
40-hex-digit address), a colon, and the second capture (a nonempty decimal
digit run) — so every string not beginning with that shape, in particular
the same token path on any other marketplace domain, yields the null
sentinel; and matching is a prefix match: appending arbitrary trailing
characters to a matching URL never prevents a match. -/
theorem parseNftUrl_spec :
    (∀ url a t, parseNftUrl url = some (a, t) →
        strStartsWith url ("https://rarible.com/token/" ++ a ++ ":" ++ t) = true
        ∧ strStartsWith a "0x" = true
        ∧ a.length = 42
        ∧ (a.data.drop 2).all isHexDigit = true
        ∧ t ≠ ""
        ∧ t.data.all isDigitCh = true)
    ∧ (∀ url p s, parseNftUrl url = some p → ∃ q, parseNftUrl (url ++ s) = some q) := by
  constructor
  · intro url a t h
    obtain ⟨addr, rest3, hurl, hlen, hhex, ha, ht, hne⟩ := raribleMatch_anatomy h
    subst ha
    subst ht
    refine ⟨?_, ?_, ?_, ?_, ?_, ?_⟩
    · unfold strStartsWith
      have h28 : ("https://rarible.com/token/0x" : String).data
          = ("https://rarible.com/token/" : String).data ++ ['0', 'x'] := rfl
      have hcolon : (":" : String).data = [':'] := rfl
      have hkey : url.data
          = ("https://rarible.com/token/" ++ (⟨'0' :: 'x' :: addr⟩ : String) ++ ":"
              ++ (⟨rest3.takeWhile isDigitCh⟩ : String)).data ++ rest3.dropWhile isDigitCh := by
        rw [hurl, h28]
        simp [strDataApp, hcolon, List.append_assoc, List.takeWhile_append_dropWhile]
      rw [hkey]
      exact listStartsWith_app _ _
    · unfold strStartsWith
      have h0x : ("0x" : String).data = ['0', 'x'] := rfl
      simp [h0x, listStartsWith, listStartsWith_nil]
    · simp [String.length, List.length_cons, hlen]
    · have hdrop : (⟨'0' :: 'x' :: addr⟩ : String).data.drop 2 = addr := rfl
      rw [hdrop]
      exact hhex
    · intro heq
      exact hne (congrArg String.data heq)
    · exact takeWhile_all rest3
  · intro url p s h
    obtain ⟨a, t⟩ := p
    obtain ⟨addr, rest3, hurl, hlen, hhex, ha, ht, hne⟩ := raribleMatch_anatomy h
    obtain ⟨d, tl, rfl⟩ : ∃ d tl, rest3 = d :: tl := by
      cases rest3 with
      | nil => simp at hne
      | cons d tl => exact ⟨d, tl, rfl⟩
    have hd : isDigitCh d = true := by
      by_contra hdc
      exact hne (by simp [List.takeWhile_cons, hdc])
    have hdata : (url ++ s).data = "https://rarible.com/token/0x".data
        ++ (addr ++ ':' :: ((d :: tl) ++ s.data)) := by
      rw [strDataApp, hurl]
      simp [List.append_assoc]
    have htake : takeHex 40 (addr ++ ':' :: ((d :: tl) ++ s.data))
        = some (addr, ':' :: ((d :: tl) ++ s.data)) := by
      rw [← hlen]
      exact takeHex_complete addr _ hhex
    refine ⟨(⟨'0' :: 'x' :: addr⟩, ⟨d :: (tl ++ s.data).takeWhile isDigitCh⟩), ?_⟩
    show raribleMatch (url ++ s) = _
    unfold raribleMatch
    rw [hdata, matchChars_complete]
    dsimp only
    rw [htake]
    dsimp only
    show (if (List.takeWhile isDigitCh (d :: (tl ++ s.data))).isEmpty = true then
          (none : Option (String × String))
        else some (⟨'0' :: 'x' :: addr⟩, ⟨List.takeWhile isDigitCh (d :: (tl ++ s.data))⟩))
      = some (⟨'0' :: 'x' :: addr⟩, ⟨d :: List.takeWhile isDigitCh (tl ++ s.data)⟩)
    rw [List.takeWhile_cons, if_pos hd]
    rfl

/-- C10 witness: a concrete Rarible URL with a query-string tail parses, its
captures have the claimed shape, and appending further characters still
yields a match. -/
theorem parseNftUrl_spec_witness :
    (strStartsWith "https://rarible.com/token/0x1234567890abcdefABCDEF1234567890abcdef12:77?x"
        ("https://rarible.com/token/" ++ "0x1234567890abcdefABCDEF1234567890abcdef12"
          ++ ":" ++ "77") = true
      ∧ strStartsWith "0x1234567890abcdefABCDEF1234567890abcdef12" "0x" = true
      ∧ ("0x1234567890abcdefABCDEF1234567890abcdef12" : String).length = 42
      ∧ (("0x1234567890abcdefABCDEF1234567890abcdef12" : String).data.drop 2).all isHexDigit
          = true
      ∧ ("77" : String) ≠ ""
      ∧ ("77" : String).data.all isDigitCh = true)
    ∧ (∃ q, parseNftUrl
        ("https://rarible.com/token/0x1234567890abcdefABCDEF1234567890abcdef12:77?x" ++ "9")
        = some q) :=
  ⟨parseNftUrl_spec.1 "https://rarible.com/token/0x1234567890abcdefABCDEF1234567890abcdef12:77?x"
      "0x1234567890abcdefABCDEF1234567890abcdef12" "77" rfl,
   parseNftUrl_spec.2 "https://rarible.com/token/0x1234567890abcdefABCDEF1234567890abcdef12:77?x"
      ("0x1234567890abcdefABCDEF1234567890abcdef12", "77") "9" rfl⟩

end UseNft
